import Mathlib

/-
Verification of the core of the ffxiv price-bot repository:
a shallow embedding of the catalog index, the tiered text resolver
(searchKoreanItem), the price aggregator (getAllKoreanServerPrices),
the per-shard fallback (getAllKoreanServerPricesFallback), the summary
builder (the data part of createResultEmbed), and the catalog CSV row
loader (the parseCSV row handling in the update script).

JS strings are modelled as List Char, JS Map as an insertion-ordered
association list with in-place update on existing keys, JS null or an
absent field as Option, and a thrown exception as the error branch of
an explicit result type.
-/

/-- JS string: a list of characters. -/
abbrev JStr := List Char

/-- JS String.prototype.toLowerCase, applied characterwise. -/
def toLowerCase (s : JStr) : JStr := s.map Char.toLower

/-- A catalog entry, as stored in data/items_ko.json: id, name, optional icon path. -/
structure Item where
  id : Nat
  name : JStr
  icon : Option JStr
deriving DecidableEq, Repr

/-- The in-memory Korean item database: a JS Map from lowercased name to item,
in insertion order. -/
abbrev ItemDB := List (JStr × Item)

/-- JS Map.prototype.set: update in place when the key exists, else append. -/
def jsMapSet (m : ItemDB) (k : JStr) (v : Item) : ItemDB :=
  match m with
  | [] => [(k, v)]
  | (k0, v0) :: rest =>
    if k0 = k then (k0, v) :: rest else (k0, v0) :: jsMapSet rest k v

/-- JS Map.prototype.get (none for a missing key). -/
def jsMapGet (m : ItemDB) (k : JStr) : Option Item :=
  match m with
  | [] => none
  | (k0, v0) :: rest => if k0 = k then some v0 else jsMapGet rest k

/-- loadKoreanItemDB (src/index.js): for each item of the JSON array in order,
set the map at key item.name.toLowerCase() to the item. -/
def loadKoreanItemDB (entries : List Item) : ItemDB :=
  entries.foldl (fun m item => jsMapSet m (toLowerCase item.name) item) []

/- Lemmas about the map model. -/

theorem jsMapGet_jsMapSet (m : ItemDB) (k k0 : JStr) (v : Item) :
    jsMapGet (jsMapSet m k v) k0 = if k = k0 then some v else jsMapGet m k0 := by
  induction m with
  | nil => simp [jsMapSet, jsMapGet]
  | cons p rest ih =>
    obtain ⟨k1, v1⟩ := p
    by_cases h1 : k1 = k
    · subst h1
      by_cases h0 : k1 = k0 <;> simp [jsMapSet, jsMapGet, h0]
    · by_cases h0 : k1 = k0
      · subst h0
        have hne : ¬ k = k1 := fun h => h1 h.symm
        simp [jsMapSet, jsMapGet, h1, hne]
      · simp [jsMapSet, jsMapGet, h1, h0, ih]

theorem mem_jsMapSet (m : ItemDB) (k : JStr) (v : Item) (q : JStr × Item)
    (hq : q ∈ jsMapSet m k v) : q ∈ m ∨ q.1 = k := by
  induction m with
  | nil =>
    simp only [jsMapSet, List.mem_singleton] at hq
    right; rw [hq]
  | cons p rest ih =>
    obtain ⟨k0, v0⟩ := p
    by_cases h0 : k0 = k
    · rw [jsMapSet, if_pos h0] at hq
      rcases List.mem_cons.mp hq with h | h
      · right; rw [h]; exact h0
      · left; exact List.mem_cons_of_mem _ h
    · rw [jsMapSet, if_neg h0] at hq
      rcases List.mem_cons.mp hq with h | h
      · left; rw [h]; exact List.mem_cons_self _ _
      · rcases ih h with h2 | h2
        · left; exact List.mem_cons_of_mem _ h2
        · right; exact h2

theorem jsMapSet_pairwiseKeys (m : ItemDB) (k : JStr) (v : Item)
    (hm : m.Pairwise (fun a b => a.1 ≠ b.1)) :
    (jsMapSet m k v).Pairwise (fun a b => a.1 ≠ b.1) := by
  induction m with
  | nil => simp [jsMapSet]
  | cons p rest ih =>
    obtain ⟨k0, v0⟩ := p
    rcases List.pairwise_cons.mp hm with ⟨hhead, hrest⟩
    by_cases h0 : k0 = k
    · rw [jsMapSet, if_pos h0]
      exact List.pairwise_cons.mpr ⟨fun q hq => hhead q hq, hrest⟩
    · rw [jsMapSet, if_neg h0]
      refine List.pairwise_cons.mpr ⟨?_, ih hrest⟩
      intro q hq
      rcases mem_jsMapSet rest k v q hq with h | h
      · exact hhead q h
      · rw [h]; exact h0

theorem loadKoreanItemDB_foldl (entries : List Item) (init : ItemDB) (k : JStr) :
    jsMapGet (entries.foldl (fun m item => jsMapSet m (toLowerCase item.name) item) init) k =
      ((entries.filter (fun e => toLowerCase e.name == k)).getLast?).orElse
        (fun _ => jsMapGet init k) := by
  induction entries generalizing init with
  | nil => simp
  | cons e rest ih =>
    simp only [List.foldl_cons, ih, List.filter_cons]
    by_cases h : toLowerCase e.name = k
    · rw [if_pos (by simpa using h)]
      cases hrest : (rest.filter (fun e2 => toLowerCase e2.name == k)).getLast? with
      | none =>
        simp [hrest, Option.orElse, jsMapGet_jsMapSet, h, List.getLast?_cons]
      | some x => simp [hrest, Option.orElse, List.getLast?_cons]
    · rw [if_neg (by simpa using h)]
      cases hrest : (rest.filter (fun e2 => toLowerCase e2.name == k)).getLast? with
      | none => simp [hrest, Option.orElse, jsMapGet_jsMapSet, h]
      | some x => simp [hrest, Option.orElse]

/-- Lookup in the loaded database returns the last entry, in load order, whose
lowercased name is the key. -/
theorem jsMapGet_loadKoreanItemDB (entries : List Item) (k : JStr) :
    jsMapGet (loadKoreanItemDB entries) k =
      (entries.filter (fun e => toLowerCase e.name == k)).getLast? := by
  have h := loadKoreanItemDB_foldl entries [] k
  rw [loadKoreanItemDB] at *
  rw [h]
  cases (entries.filter (fun e => toLowerCase e.name == k)).getLast? <;>
    simp [Option.orElse, jsMapGet]

/-- Every key of the loaded database is the lowercased name of its value. -/
theorem loadKoreanItemDB_key (entries : List Item) :
    ∀ p ∈ loadKoreanItemDB entries, p.1 = toLowerCase p.2.name := by
  suffices h : ∀ (init : ItemDB),
      (∀ p ∈ init, p.1 = toLowerCase p.2.name) →
      ∀ p ∈ entries.foldl (fun m item => jsMapSet m (toLowerCase item.name) item) init,
        p.1 = toLowerCase p.2.name by
    intro p hp
    exact h [] (by simp) p hp
  have hset : ∀ (init : ItemDB) (e : Item), (∀ p ∈ init, p.1 = toLowerCase p.2.name) →
      ∀ q ∈ jsMapSet init (toLowerCase e.name) e, q.1 = toLowerCase q.2.name := by
    intro init e hinit q hq
    induction init with
    | nil =>
      simp only [jsMapSet, List.mem_singleton] at hq
      rw [hq]
    | cons p0 rest0 ih0 =>
      obtain ⟨k0, v0⟩ := p0
      by_cases h0 : k0 = toLowerCase e.name
      · rw [jsMapSet, if_pos h0] at hq
        rcases List.mem_cons.mp hq with h | h
        · rw [h]; exact h0
        · exact hinit q (List.mem_cons_of_mem _ h)
      · rw [jsMapSet, if_neg h0] at hq
        rcases List.mem_cons.mp hq with h | h
        · rw [h]; exact hinit (k0, v0) (List.mem_cons_self _ _)
        · exact ih0 (fun r hr => hinit r (List.mem_cons_of_mem _ hr)) h
  induction entries with
  | nil => intro init hinit p hp; exact hinit p hp
  | cons e rest ih =>
    intro init hinit p hp
    exact ih (jsMapSet init (toLowerCase e.name) e) (hset init e hinit) p hp

/-- Keys of the loaded database are pairwise distinct. -/
theorem loadKoreanItemDB_nodupKeys (entries : List Item) :
    (loadKoreanItemDB entries).Pairwise (fun a b => a.1 ≠ b.1) := by
  suffices h : ∀ (init : ItemDB), init.Pairwise (fun a b => a.1 ≠ b.1) →
      (entries.foldl (fun m item => jsMapSet m (toLowerCase item.name) item) init).Pairwise
        (fun a b => a.1 ≠ b.1) by
    exact h [] (by simp)
  induction entries with
  | nil => intro init hinit; exact hinit
  | cons e rest ih =>
    intro init hinit
    exact ih _ (jsMapSet_pairwiseKeys init (toLowerCase e.name) e hinit)

/-- C8: for every ordered entry list, each key of the built index is the
lowercase-normalized name of its entry, and lookup of a key returns the
last entry in load order whose normalized name is that key. -/
theorem claim_C8_load_last_wins (entries : List Item) :
    (∀ p ∈ loadKoreanItemDB entries, p.1 = toLowerCase p.2.name) ∧
    (∀ k : JStr, jsMapGet (loadKoreanItemDB entries) k =
      (entries.filter (fun e => toLowerCase e.name == k)).getLast?) :=
  ⟨loadKoreanItemDB_key entries, fun k => jsMapGet_loadKoreanItemDB entries k⟩

/-- C8 witness: two entries normalize to the key "pot"; lookup returns the
second (last-loaded) one. -/
theorem claim_C8_load_last_wins_witness :
    (∀ p ∈ loadKoreanItemDB [⟨1, "Pot".data, none⟩, ⟨2, "pOt".data, none⟩],
      p.1 = toLowerCase p.2.name) ∧
    (jsMapGet (loadKoreanItemDB [⟨1, "Pot".data, none⟩, ⟨2, "pOt".data, none⟩]) ("pot".data) =
      some ⟨2, "pOt".data, none⟩) := by
  refine ⟨(claim_C8_load_last_wins _).1, ?_⟩
  rw [(claim_C8_load_last_wins [⟨1, "Pot".data, none⟩, ⟨2, "pOt".data, none⟩]).2 ("pot".data)]
  decide

/- The tiered text resolver: searchKoreanItem (src/index.js). -/

/-- JS String.prototype.includes on the list model: the first argument occurs
as a contiguous run inside the second. -/
def jsIncludes (q : JStr) : JStr → Bool
  | [] => q.isEmpty
  | c :: rest => q.isPrefixOf (c :: rest) || jsIncludes q rest

/-- The comparator sortFn of searchKoreanItem, read as the before-or-equal
test of the stable sort it drives: shorter name first, lower id on equal
name lengths. -/
def sortLe (a b : Item) : Bool :=
  decide (a.name.length < b.name.length) ||
    (a.name.length == b.name.length && decide (a.id ≤ b.id))

theorem sortLe_trans (a b c : Item) (h1 : sortLe a b = true) (h2 : sortLe b c = true) :
    sortLe a c = true := by
  simp only [sortLe, Bool.or_eq_true, Bool.and_eq_true, decide_eq_true_eq,
    beq_iff_eq] at *
  omega

theorem sortLe_total (a b : Item) : (sortLe a b || sortLe b a) = true := by
  simp only [sortLe, Bool.or_eq_true, Bool.and_eq_true, decide_eq_true_eq,
    beq_iff_eq]
  omega

/-- The comparator as a decidable relation, for the stable sort. -/
def sortLeP (a b : Item) : Prop := sortLe a b = true

instance : DecidableRel sortLeP := fun a b => instDecidableEqBool (sortLe a b) true

instance : IsTotal Item sortLeP :=
  ⟨fun a b => by
    rcases Bool.or_eq_true_iff.mp (sortLe_total a b) with h | h
    · exact Or.inl h
    · exact Or.inr h⟩

instance : IsTrans Item sortLeP := ⟨fun a b c => sortLe_trans a b c⟩

/-- The stable sort applied to a bucket. JS Array.prototype.sort with the
sortFn comparator is required to be stable, and a stable sort is uniquely
determined by its comparator, so the structurally recursive stable
insertionSort is an exact model of it. -/
def sortByFn (l : List Item) : List Item := List.insertionSort sortLeP l

/-- The single for-of scan of searchKoreanItem over the database, pushing each
entry into at most one of the ends-with, starts-with and contains buckets, in
iteration order. -/
def classify (db : ItemDB) (q : JStr) : List Item × List Item × List Item :=
  match db with
  | [] => ([], [], [])
  | (name, item) :: rest =>
    let r := classify rest q
    if q.isSuffixOf name then (item :: r.1, r.2.1, r.2.2)
    else if q.isPrefixOf name then (r.1, item :: r.2.1, r.2.2)
    else if jsIncludes q name then (r.1, r.2.1, item :: r.2.2)
    else r

/-- The result shape of searchKoreanItem: the main item and up to ten
suggestions. -/
structure SearchResult where
  item : Option Item
  suggestions : List Item
deriving DecidableEq, Repr

/-- searchKoreanItem (src/index.js). The JS in-place Array.prototype.sort with
the sortFn comparator is a stable sort, modelled by mergeSort with sortLe. -/
def searchKoreanItem (db : ItemDB) (query : JStr) : SearchResult :=
  let queryLower := toLowerCase query
  match jsMapGet db queryLower with
  | some item => ⟨some item, []⟩
  | none =>
    let r := classify db queryLower
    let endsWithMatches := sortByFn r.1
    let startsWithMatches := sortByFn r.2.1
    let containsMatches := sortByFn r.2.2
    let allMatches := endsWithMatches ++ startsWithMatches ++ containsMatches
    match allMatches with
    | [] => ⟨none, []⟩
    | x :: rest => ⟨some x, rest.take 10⟩

/- Specification-side tier descriptions: filters of the database by the three
mutually exclusive predicates, tested in source order. -/

/-- Entries whose stored key ends with the query. -/
def tierEnds (db : ItemDB) (q : JStr) : List Item :=
  (db.filter (fun p => q.isSuffixOf p.1)).map (fun p => p.2)

/-- Entries whose stored key does not end with but starts with the query. -/
def tierStarts (db : ItemDB) (q : JStr) : List Item :=
  (db.filter (fun p => !q.isSuffixOf p.1 && q.isPrefixOf p.1)).map (fun p => p.2)

/-- Entries whose stored key neither ends with nor starts with, but contains
the query. -/
def tierContains (db : ItemDB) (q : JStr) : List Item :=
  (db.filter (fun p => !q.isSuffixOf p.1 && !q.isPrefixOf p.1 && jsIncludes q p.1)).map
    (fun p => p.2)

/-- The full match list: the three tiers, each stably sorted by the sortFn
comparator, concatenated in priority order. -/
def tierConcat (db : ItemDB) (q : JStr) : List Item :=
  sortByFn (tierEnds db q) ++ (sortByFn (tierStarts db q) ++ sortByFn (tierContains db q))

theorem classify_eq_filters (db : ItemDB) (q : JStr) :
    classify db q = (tierEnds db q, tierStarts db q, tierContains db q) := by
  induction db with
  | nil => simp [classify, tierEnds, tierStarts, tierContains]
  | cons p rest ih =>
    obtain ⟨name, item⟩ := p
    simp only [classify, ih, tierEnds, tierStarts, tierContains, List.filter_cons]
    by_cases h1 : q.isSuffixOf name
    · simp [h1]
    · by_cases h2 : q.isPrefixOf name
      · simp [h1, h2]
      · by_cases h3 : jsIncludes q name
        · simp [h1, h2, h3]
        · simp [h1, h2, h3]

/-- The boolean contains test agrees with the sublist-run relation. -/
theorem jsIncludes_spec (q n : JStr) : jsIncludes q n = true ↔ q <:+: n := by
  induction n with
  | nil =>
    simp [jsIncludes, List.isEmpty_iff, List.infix_nil]
  | cons c rest ih =>
    simp only [jsIncludes, Bool.or_eq_true, List.isPrefixOf_iff_prefix, ih,
      List.infix_cons_iff]

theorem isSuffixOf_includes (q n : JStr) (h : q.isSuffixOf n = true) :
    jsIncludes q n = true :=
  (jsIncludes_spec q n).mpr (List.IsSuffix.isInfix (List.isSuffixOf_iff_suffix.mp h))

theorem isPrefixOf_includes (q n : JStr) (h : q.isPrefixOf n = true) :
    jsIncludes q n = true :=
  (jsIncludes_spec q n).mpr (List.IsPrefix.isInfix (List.isPrefixOf_iff_prefix.mp h))

/-- The three tiers together are a permutation of all entries containing the
query: every matching entry lands in exactly one tier, and no entry is
scanned twice. -/
theorem tiers_perm_matches (db : ItemDB) (q : JStr) :
    (tierEnds db q ++ (tierStarts db q ++ tierContains db q)).Perm
      ((db.filter (fun p => jsIncludes q p.1)).map (fun p => p.2)) := by
  induction db with
  | nil => simp [tierEnds, tierStarts, tierContains]
  | cons p rest ih =>
    obtain ⟨name, item⟩ := p
    simp only [tierEnds, tierStarts, tierContains, List.filter_cons] at *
    by_cases h1 : q.isSuffixOf name
    · simp only [h1, Bool.not_true, Bool.false_and, if_pos, if_neg, Bool.false_eq_true,
        isSuffixOf_includes q name h1, List.map_cons, List.cons_append]
      exact ih.cons item
    · by_cases h2 : q.isPrefixOf name
      · have h3 : jsIncludes q name = true := isPrefixOf_includes q name h2
        simp only [h1, h2, h3, Bool.not_false, Bool.true_and, Bool.and_false,
          Bool.false_eq_true, if_neg, if_pos, List.map_cons, not_false_iff]
        refine List.Perm.trans ?_ (ih.cons item)
        exact List.Perm.trans (by simp) List.perm_middle
      · by_cases h3 : jsIncludes q name
        · simp only [h1, h2, h3, Bool.not_false, Bool.true_and, Bool.and_true,
            Bool.false_eq_true, if_neg, if_pos, List.map_cons, not_false_iff]
          refine List.Perm.trans ?_ (ih.cons item)
          refine List.Perm.trans (List.Perm.append_left (tierEnds rest q) List.perm_middle) ?_
          exact List.perm_middle
        · simp only [h1, h2, h3, Bool.and_false, Bool.false_eq_true, if_neg,
            not_false_iff]
          exact ih

theorem sortLe_iff (a b : Item) :
    sortLe a b = true ↔
      (a.name.length < b.name.length ∨ (a.name.length = b.name.length ∧ a.id ≤ b.id)) := by
  simp only [sortLe, Bool.or_eq_true, Bool.and_eq_true, decide_eq_true_eq, beq_iff_eq]

/-- With no exact match, searchKoreanItem returns head and window 1..10 of the
sorted tier concatenation. -/
theorem searchKoreanItem_eq (db : ItemDB) (q : JStr)
    (h : jsMapGet db (toLowerCase q) = none) :
    searchKoreanItem db q =
      ⟨(tierConcat db (toLowerCase q)).head?,
        ((tierConcat db (toLowerCase q)).drop 1).take 10⟩ := by
  have hcl : searchKoreanItem db q =
      match tierConcat db (toLowerCase q) with
      | [] => ⟨none, []⟩
      | x :: rest => ⟨some x, rest.take 10⟩ := by
    simp only [searchKoreanItem, h, classify_eq_filters, tierConcat, List.append_assoc]
  rw [hcl]
  cases tierConcat db (toLowerCase q) with
  | nil => rfl
  | cons x rest => simp

/-- C1: with no exact normalized-name match, the result is built from the
three mutually exclusive tiers in order ends-with, starts-with, contains,
each a stable sort (ascending name length, then ascending id) of the
corresponding filter of the catalog; the primary is the head of the
concatenation, the suggestions are positions 1 to 10, and the concatenation
is a permutation of the entries containing the query, so each matching
entry is placed exactly once. -/
theorem claim_C1_tiered_search (db : ItemDB) (q : JStr)
    (h : jsMapGet db (toLowerCase q) = none) :
    searchKoreanItem db q =
      ⟨(tierConcat db (toLowerCase q)).head?,
        ((tierConcat db (toLowerCase q)).drop 1).take 10⟩ ∧
    (sortByFn (tierEnds db (toLowerCase q))).Perm (tierEnds db (toLowerCase q)) ∧
    (sortByFn (tierStarts db (toLowerCase q))).Perm (tierStarts db (toLowerCase q)) ∧
    (sortByFn (tierContains db (toLowerCase q))).Perm (tierContains db (toLowerCase q)) ∧
    (∀ t ∈ [tierEnds db (toLowerCase q), tierStarts db (toLowerCase q),
        tierContains db (toLowerCase q)],
      (sortByFn t).Pairwise (fun a b =>
        a.name.length < b.name.length ∨
          (a.name.length = b.name.length ∧ a.id ≤ b.id))) ∧
    (tierConcat db (toLowerCase q)).Perm
      ((db.filter (fun p => jsIncludes (toLowerCase q) p.1)).map (fun p => p.2)) := by
  refine ⟨searchKoreanItem_eq db q h, List.perm_insertionSort _ _,
    List.perm_insertionSort _ _, List.perm_insertionSort _ _, ?_, ?_⟩
  · intro t _
    refine List.Pairwise.imp ?_ (List.sorted_insertionSort sortLeP t)
    intro a b hab
    exact (sortLe_iff a b).mp hab
  · refine List.Perm.trans ?_ (tiers_perm_matches db (toLowerCase q))
    exact List.Perm.append (List.perm_insertionSort _ _)
      (List.Perm.append (List.perm_insertionSort _ _) (List.perm_insertionSort _ _))

/-- The three-entry example catalog of the specification, keyed by lowercased
names as the loader stores it. -/
def exDb : ItemDB :=
  [("spot".data, ⟨1, "Spot".data, none⟩),
   ("pottery".data, ⟨2, "Pottery".data, none⟩),
   ("hot pot".data, ⟨3, "Hot Pot".data, none⟩)]

/-- C1 witness: on the Spot, Pottery, Hot Pot catalog with query pot, the
result is Spot then Hot Pot (both end with the query, shorter name first),
then Pottery (starts-with); the contains tier is empty. Note the example in
the specification text expects Hot Pot in the contains tier, but a name
ending with the query always lands in the ends-with tier. -/
theorem claim_C1_tiered_search_witness :
    (searchKoreanItem exDb ("pot".data) =
      ⟨some ⟨1, "Spot".data, none⟩,
        [⟨3, "Hot Pot".data, none⟩, ⟨2, "Pottery".data, none⟩]⟩) ∧
    (searchKoreanItem exDb ("pot".data) =
      ⟨(tierConcat exDb (toLowerCase ("pot".data))).head?,
        ((tierConcat exDb (toLowerCase ("pot".data))).drop 1).take 10⟩ ∧
    (sortByFn (tierEnds exDb (toLowerCase ("pot".data)))).Perm
      (tierEnds exDb (toLowerCase ("pot".data))) ∧
    (sortByFn (tierStarts exDb (toLowerCase ("pot".data)))).Perm
      (tierStarts exDb (toLowerCase ("pot".data))) ∧
    (sortByFn (tierContains exDb (toLowerCase ("pot".data)))).Perm
      (tierContains exDb (toLowerCase ("pot".data))) ∧
    (∀ t ∈ [tierEnds exDb (toLowerCase ("pot".data)),
        tierStarts exDb (toLowerCase ("pot".data)),
        tierContains exDb (toLowerCase ("pot".data))],
      (sortByFn t).Pairwise (fun a b =>
        a.name.length < b.name.length ∨
          (a.name.length = b.name.length ∧ a.id ≤ b.id))) ∧
    (tierConcat exDb (toLowerCase ("pot".data))).Perm
      ((exDb.filter (fun p => jsIncludes (toLowerCase ("pot".data)) p.1)).map
        (fun p => p.2))) :=
  ⟨by decide, claim_C1_tiered_search exDb ("pot".data) (by decide)⟩

/-- C4 counterexample: entry 1 has canonical name Pot; a second entry with the
same normalized name is loaded later; resolving the query POT, a casing of
Pot, returns entry 2 rather than entry 1, so the exact-match result does
depend on the other entries present. -/
theorem claim_C4_counterexample :
    searchKoreanItem (loadKoreanItemDB [⟨1, "Pot".data, none⟩, ⟨2, "pOt".data, none⟩])
        ("POT".data) =
      ⟨some ⟨2, "pOt".data, none⟩, []⟩ ∧
    (⟨2, "pOt".data, none⟩ : Item) ≠ ⟨1, "Pot".data, none⟩ := by
  decide

/-- C4 amended: for a catalog entry E that is the last loaded entry whose
normalized name equals that of E (in particular when no other entry shares
its normalized name), resolving any letter-casing of the name returns E as
primary with empty alternates, without any tier scan. -/
theorem claim_C4_exact_match (entries : List Item) (E : Item) (q : JStr)
    (hq : toLowerCase q = toLowerCase E.name)
    (hlast : (entries.filter
        (fun e => toLowerCase e.name == toLowerCase E.name)).getLast? = some E) :
    searchKoreanItem (loadKoreanItemDB entries) q = ⟨some E, []⟩ := by
  have h1 : jsMapGet (loadKoreanItemDB entries) (toLowerCase q) = some E := by
    rw [jsMapGet_loadKoreanItemDB, hq, hlast]
  simp [searchKoreanItem, h1]

/-- C4 witness: a one-entry catalog with name Pot; the query pOT resolves to
that entry with no alternates. -/
theorem claim_C4_exact_match_witness :
    searchKoreanItem (loadKoreanItemDB [⟨7, "Pot".data, none⟩]) ("pOT".data) =
      ⟨some ⟨7, "Pot".data, none⟩, []⟩ :=
  claim_C4_exact_match [⟨7, "Pot".data, none⟩] ⟨7, "Pot".data, none⟩ ("pOT".data)
    (by decide) (by decide)

/- Distinctness of catalog values and disjointness of the tiers, needed for
the alternates cap claim. -/

theorem loadKoreanItemDB_snd_inj (entries : List Item) :
    ∀ p ∈ loadKoreanItemDB entries, ∀ p2 ∈ loadKoreanItemDB entries,
      p.2 = p2.2 → p = p2 := by
  intro p hp p2 hp2 hval
  by_cases hpq : p = p2
  · exact hpq
  · exfalso
    have hk : p.1 = toLowerCase p.2.name := loadKoreanItemDB_key entries p hp
    have hk2 : p2.1 = toLowerCase p2.2.name := loadKoreanItemDB_key entries p2 hp2
    have hsymm : Symmetric (fun a b : JStr × Item => a.1 ≠ b.1) :=
      fun a b h => fun he => h he.symm
    have hne := (loadKoreanItemDB_nodupKeys entries).forall hsymm hp hp2 hpq
    exact hne (by rw [hk, hk2, hval])

theorem loadKoreanItemDB_valuesNodup (entries : List Item) :
    ((loadKoreanItemDB entries).map (fun p => p.2)).Nodup := by
  have hpw : (loadKoreanItemDB entries).Pairwise (fun a b => a.2 ≠ b.2) := by
    refine List.Pairwise.imp_of_mem ?_ (loadKoreanItemDB_nodupKeys entries)
    intro a b ha hb hk hval
    exact hk (by rw [loadKoreanItemDB_key entries a ha, loadKoreanItemDB_key entries b hb, hval])
  exact List.Pairwise.map _ (fun a b h => h) hpw

theorem tierEnds_nodup (entries : List Item) (q : JStr) :
    (tierEnds (loadKoreanItemDB entries) q).Nodup :=
  List.Nodup.sublist (List.Sublist.map _ (List.filter_sublist _))
    (loadKoreanItemDB_valuesNodup entries)

theorem tierStarts_nodup (entries : List Item) (q : JStr) :
    (tierStarts (loadKoreanItemDB entries) q).Nodup :=
  List.Nodup.sublist (List.Sublist.map _ (List.filter_sublist _))
    (loadKoreanItemDB_valuesNodup entries)

theorem tierContains_nodup (entries : List Item) (q : JStr) :
    (tierContains (loadKoreanItemDB entries) q).Nodup :=
  List.Nodup.sublist (List.Sublist.map _ (List.filter_sublist _))
    (loadKoreanItemDB_valuesNodup entries)

theorem tiers_disjoint (entries : List Item) (q : JStr) :
    (∀ a ∈ tierEnds (loadKoreanItemDB entries) q,
      a ∉ tierStarts (loadKoreanItemDB entries) q ∧
      a ∉ tierContains (loadKoreanItemDB entries) q) ∧
    (∀ a ∈ tierStarts (loadKoreanItemDB entries) q,
      a ∉ tierContains (loadKoreanItemDB entries) q) := by
  have hval := loadKoreanItemDB_snd_inj entries
  constructor
  · intro a ha
    obtain ⟨p, hpf, hpv⟩ := List.mem_map.mp ha
    obtain ⟨hp, hpc⟩ := List.mem_filter.mp hpf
    have h1 : q.isSuffixOf p.1 = true := hpc
    constructor
    · intro hb
      obtain ⟨p2, hpf2, hpv2⟩ := List.mem_map.mp hb
      obtain ⟨hp2, hpc2⟩ := List.mem_filter.mp hpf2
      have hpp : p = p2 := hval p hp p2 hp2 (by rw [hpv, hpv2])
      have h2 : (!q.isSuffixOf p2.1 && q.isPrefixOf p2.1) = true := hpc2
      rw [← hpp] at h2
      rw [Bool.and_eq_true] at h2
      have h3 := h2.1
      rw [h1] at h3
      simp at h3
    · intro hb
      obtain ⟨p2, hpf2, hpv2⟩ := List.mem_map.mp hb
      obtain ⟨hp2, hpc2⟩ := List.mem_filter.mp hpf2
      have hpp : p = p2 := hval p hp p2 hp2 (by rw [hpv, hpv2])
      have h2 : (!q.isSuffixOf p2.1 && !q.isPrefixOf p2.1 && jsIncludes q p2.1) = true := hpc2
      rw [← hpp] at h2
      rw [Bool.and_eq_true, Bool.and_eq_true] at h2
      have h3 := h2.1.1
      rw [h1] at h3
      simp at h3
  · intro a ha
    obtain ⟨p, hpf, hpv⟩ := List.mem_map.mp ha
    obtain ⟨hp, hpc⟩ := List.mem_filter.mp hpf
    have h1 : (!q.isSuffixOf p.1 && q.isPrefixOf p.1) = true := hpc
    rw [Bool.and_eq_true] at h1
    have h1b := h1.2
    intro hb
    obtain ⟨p2, hpf2, hpv2⟩ := List.mem_map.mp hb
    obtain ⟨hp2, hpc2⟩ := List.mem_filter.mp hpf2
    have hpp : p = p2 := hval p hp p2 hp2 (by rw [hpv, hpv2])
    have h2 : (!q.isSuffixOf p2.1 && !q.isPrefixOf p2.1 && jsIncludes q p2.1) = true := hpc2
    rw [← hpp] at h2
    rw [Bool.and_eq_true, Bool.and_eq_true] at h2
    have h3 := h2.1.2
    rw [h1b] at h3
    simp at h3

theorem tierConcat_nodup (entries : List Item) (q : JStr) :
    (tierConcat (loadKoreanItemDB entries) q).Nodup := by
  have hE := (List.perm_insertionSort sortLeP
    (tierEnds (loadKoreanItemDB entries) q)).nodup_iff.mpr (tierEnds_nodup entries q)
  have hS := (List.perm_insertionSort sortLeP
    (tierStarts (loadKoreanItemDB entries) q)).nodup_iff.mpr (tierStarts_nodup entries q)
  have hC := (List.perm_insertionSort sortLeP
    (tierContains (loadKoreanItemDB entries) q)).nodup_iff.mpr (tierContains_nodup entries q)
  have hdisj := tiers_disjoint entries q
  have memE : ∀ a, a ∈ sortByFn (tierEnds (loadKoreanItemDB entries) q) ↔
      a ∈ tierEnds (loadKoreanItemDB entries) q :=
    fun a => (List.perm_insertionSort sortLeP _).mem_iff
  have memS : ∀ a, a ∈ sortByFn (tierStarts (loadKoreanItemDB entries) q) ↔
      a ∈ tierStarts (loadKoreanItemDB entries) q :=
    fun a => (List.perm_insertionSort sortLeP _).mem_iff
  have memC : ∀ a, a ∈ sortByFn (tierContains (loadKoreanItemDB entries) q) ↔
      a ∈ tierContains (loadKoreanItemDB entries) q :=
    fun a => (List.perm_insertionSort sortLeP _).mem_iff
  refine List.Nodup.append hE (List.Nodup.append hS hC ?_) ?_
  · intro a haS haC
    exact (hdisj.2 a ((memS a).mp haS)) ((memC a).mp haC)
  · intro a haE haSC
    rcases List.mem_append.mp haSC with h | h
    · exact ((hdisj.1 a ((memE a).mp haE)).1) ((memS a).mp h)
    · exact ((hdisj.1 a ((memE a).mp haE)).2) ((memC a).mp h)

/-- C7: when the tier concatenation has more than 11 matches, the alternates
are exactly the elements at positions 1 to 10 of the concatenation, there
are exactly 10 of them, and the primary (position 0) is not among them. -/
theorem claim_C7_alternates_cap (entries : List Item) (q : JStr)
    (hmiss : jsMapGet (loadKoreanItemDB entries) (toLowerCase q) = none)
    (hbig : 11 < (tierConcat (loadKoreanItemDB entries) (toLowerCase q)).length) :
    (searchKoreanItem (loadKoreanItemDB entries) q).suggestions =
      ((tierConcat (loadKoreanItemDB entries) (toLowerCase q)).drop 1).take 10 ∧
    (searchKoreanItem (loadKoreanItemDB entries) q).suggestions.length = 10 ∧
    (searchKoreanItem (loadKoreanItemDB entries) q).item =
      (tierConcat (loadKoreanItemDB entries) (toLowerCase q)).head? ∧
    (∀ x, (searchKoreanItem (loadKoreanItemDB entries) q).item = some x →
      x ∉ (searchKoreanItem (loadKoreanItemDB entries) q).suggestions) := by
  have heq := searchKoreanItem_eq (loadKoreanItemDB entries) q hmiss
  rw [heq]
  refine ⟨rfl, ?_, rfl, ?_⟩
  · simp only [List.length_take, List.length_drop]
    omega
  · intro x hx
    have hx2 : (tierConcat (loadKoreanItemDB entries) (toLowerCase q)).head? = some x := hx
    have hnd := tierConcat_nodup entries (toLowerCase q)
    intro hmem
    have hmem2 : x ∈ ((tierConcat (loadKoreanItemDB entries) (toLowerCase q)).drop 1).take 10 :=
      hmem
    cases hall : tierConcat (loadKoreanItemDB entries) (toLowerCase q) with
    | nil => rw [hall] at hx2; simp at hx2
    | cons x0 rest =>
      rw [hall] at hx2 hmem2 hnd
      have hx0 : x0 = x := by simpa using hx2
      have hx0nrest : x0 ∉ rest := (List.nodup_cons.mp hnd).1
      simp only [List.drop_one, List.tail_cons] at hmem2
      refine hx0nrest ?_
      rw [hx0]
      exact (List.take_sublist 10 rest).subset hmem2

/-- A twelve-entry catalog in which every name contains (indeed ends with)
the query a, with no exact match. -/
def exEntries12 : List Item :=
  [⟨1, "ba".data, none⟩, ⟨2, "ca".data, none⟩, ⟨3, "da".data, none⟩, ⟨4, "ea".data, none⟩,
   ⟨5, "fa".data, none⟩, ⟨6, "ga".data, none⟩, ⟨7, "ha".data, none⟩, ⟨8, "ia".data, none⟩,
   ⟨9, "ja".data, none⟩, ⟨10, "ka".data, none⟩, ⟨11, "la".data, none⟩, ⟨12, "ma".data, none⟩]

/-- C7 witness: with 12 matches, exactly 10 alternates are returned, and the
primary is not among them. -/
theorem claim_C7_alternates_cap_witness :
    (searchKoreanItem (loadKoreanItemDB exEntries12) ("a".data)).suggestions =
      ((tierConcat (loadKoreanItemDB exEntries12) (toLowerCase ("a".data))).drop 1).take 10 ∧
    (searchKoreanItem (loadKoreanItemDB exEntries12) ("a".data)).suggestions.length = 10 ∧
    (searchKoreanItem (loadKoreanItemDB exEntries12) ("a".data)).item =
      (tierConcat (loadKoreanItemDB exEntries12) (toLowerCase ("a".data))).head? ∧
    (∀ x, (searchKoreanItem (loadKoreanItemDB exEntries12) ("a".data)).item = some x →
      x ∉ (searchKoreanItem (loadKoreanItemDB exEntries12) ("a".data)).suggestions) :=
  claim_C7_alternates_cap exEntries12 ("a".data) (by decide) (by decide)

/- The price aggregator: getAllKoreanServerPrices, getMarketData and
getAllKoreanServerPricesFallback (src/index.js). -/

/-- One declared Korean shard, as in the KOREAN_SERVERS constant. -/
structure ServerInfo where
  id : Nat
  name : JStr
  emoji : JStr
deriving DecidableEq, Repr

/-- The fixed declared shard list of src/index.js. -/
def KOREAN_SERVERS : List ServerInfo :=
  [⟨2075, "카벙클".data, "💎".data⟩,
   ⟨2076, "초코보".data, "🐤".data⟩,
   ⟨2077, "모그리".data, "🧸".data⟩,
   ⟨2078, "톤베리".data, "🗡️".data⟩,
   ⟨2080, "펜리르".data, "🐺".data⟩]

/-- A single marketplace listing of a price payload. -/
structure Listing where
  worldID : Nat
  hq : Bool
  pricePerUnit : Nat
deriving DecidableEq, Repr

/-- A recent-history entry of a price payload. -/
structure HistEntry where
  hq : Bool
  pricePerUnit : Nat
deriving DecidableEq, Repr

/-- The payload of the unified data-centre call. Fields the code guards with
truthiness or optional chaining are modelled as Option. -/
structure UniPayload where
  listings : Option (List Listing)
  recentHistory : Option (List HistEntry)
  worldUploadTimes : Option (List (Nat × Nat))
  dcName : Option JStr
deriving DecidableEq, Repr

/-- The payload of a single-shard call, as consumed by the fallback path.
The 404 branch of getMarketData fabricates hasData = false with empty
listings, hence the optional hasData field. -/
structure MarketPayload where
  hasData : Option Bool
  listings : Option (List Listing)
  recentHistory : Option (List HistEntry)
  lastUploadTime : Option Nat
deriving DecidableEq, Repr

/-- The outcome of one axios.get call: a payload, an HTTP 404 rejection, or
any other failure (timeout, transport error, other status). -/
inductive FetchResult (α : Type) where
  | ok (data : α)
  | notFound
  | failed (msg : JStr)
deriving DecidableEq, Repr

/-- getMarketData (src/index.js): a 404 becomes an empty valid result; any
other error is rethrown to the caller. -/
def getMarketData (r : FetchResult MarketPayload) : Except JStr MarketPayload :=
  match r with
  | .ok data => .ok data
  | .notFound => .ok ⟨some false, some [], some [], none⟩
  | .failed msg => .error msg

/-- JS Math.min spread over a list of prices; the code only applies it to
nonempty lists, keeping null otherwise, modelled by the optional result. -/
def jsMathMin : List Nat → Option Nat
  | [] => none
  | x :: xs => some (xs.foldl Nat.min x)

/-- A per-shard summary row. Fields that a branch of the code leaves unset
are none; the error field is the failure marker of the fallback catch. -/
structure ServerQuote where
  server : JStr
  serverId : Nat
  emoji : JStr
  hasData : Option Bool
  listingCount : Option Nat
  minPriceNQ : Option Nat
  minPriceHQ : Option Nat
  lastUploadTime : Option Nat
  error : Option JStr
deriving DecidableEq, Repr

/-- The aggregated report returned by both aggregator paths. -/
structure PriceReport where
  servers : List ServerQuote
  recentTradeMinNQ : Option Nat
  recentTradeMinHQ : Option Nat
  dcName : JStr
deriving DecidableEq, Repr

/-- One iteration of the per-server loop of getAllKoreanServerPrices: filter
the unified listings to the shard, split by quality, take minima, and read
the upload time, where a time of 0 is falsy and becomes null. -/
def unifiedQuote (data : UniPayload) (server : ServerInfo) : ServerQuote :=
  let serverListings := (data.listings.getD []).filter (fun l => l.worldID == server.id)
  let listingCount := serverListings.length
  let minPriceNQ :=
    if serverListings.length > 0 then
      jsMathMin ((serverListings.filter (fun l => !l.hq)).map (fun l => l.pricePerUnit))
    else none
  let minPriceHQ :=
    if serverListings.length > 0 then
      jsMathMin ((serverListings.filter (fun l => l.hq)).map (fun l => l.pricePerUnit))
    else none
  let worldUploadTime :=
    match data.worldUploadTimes with
    | none => none
    | some m =>
      match m.lookup server.id with
      | none => none
      | some t => if t == 0 then none else some t
  { server := server.name, serverId := server.id, emoji := server.emoji,
    hasData := some (decide (listingCount > 0)), listingCount := some listingCount,
    minPriceNQ := minPriceNQ, minPriceHQ := minPriceHQ,
    lastUploadTime := worldUploadTime, error := none }

/-- The recent-history minima computed by getAllKoreanServerPrices. -/
def recentMins (history : Option (List HistEntry)) : Option Nat × Option Nat :=
  match history with
  | none => (none, none)
  | some h =>
    if h.length > 0 then
      (jsMathMin ((h.filter (fun e => !e.hq)).map (fun e => e.pricePerUnit)),
       jsMathMin ((h.filter (fun e => e.hq)).map (fun e => e.pricePerUnit)))
    else (none, none)

/-- One iteration of the fallback loop over a shard: the summary built from
that shard's own getMarketData outcome; the catch branch yields a summary
holding only the identity fields and the error marker. -/
def fallbackQuote (server : ServerInfo) (r : FetchResult MarketPayload) : ServerQuote :=
  match getMarketData r with
  | .error msg =>
    { server := server.name, serverId := server.id, emoji := server.emoji,
      hasData := none, listingCount := none, minPriceNQ := none, minPriceHQ := none,
      lastUploadTime := none, error := some msg }
  | .ok data =>
    match data.listings with
    | some ls =>
      if ls.length > 0 then
        { server := server.name, serverId := server.id, emoji := server.emoji,
          hasData := data.hasData, listingCount := some ls.length,
          minPriceNQ := jsMathMin ((ls.filter (fun l => !l.hq)).map (fun l => l.pricePerUnit)),
          minPriceHQ := jsMathMin ((ls.filter (fun l => l.hq)).map (fun l => l.pricePerUnit)),
          lastUploadTime := data.lastUploadTime, error := none }
      else
        { server := server.name, serverId := server.id, emoji := server.emoji,
          hasData := data.hasData, listingCount := some 0,
          minPriceNQ := none, minPriceHQ := none,
          lastUploadTime := data.lastUploadTime, error := none }
    | none =>
      { server := server.name, serverId := server.id, emoji := server.emoji,
        hasData := data.hasData, listingCount := some 0,
        minPriceNQ := none, minPriceHQ := none,
        lastUploadTime := data.lastUploadTime, error := none }

/-- getAllKoreanServerPricesFallback: independent per-shard calls, one per
declared shard, composed in declared order; the outcomes function gives the
result of each single-shard call keyed by shard id. -/
def getAllKoreanServerPricesFallback
    (outcomes : Nat → FetchResult MarketPayload) : PriceReport :=
  { servers := KOREAN_SERVERS.map (fun s => fallbackQuote s (outcomes s.id)),
    recentTradeMinNQ := none, recentTradeMinHQ := none, dcName := "Korea".data }

/-- getAllKoreanServerPrices: one unified data-centre call; any rejection,
a 404 included, lands in the catch branch and falls back to the per-shard
path. -/
def getAllKoreanServerPrices (uni : FetchResult UniPayload)
    (outcomes : Nat → FetchResult MarketPayload) : PriceReport :=
  match uni with
  | .ok data =>
    let results := KOREAN_SERVERS.map (fun s => unifiedQuote data s)
    let r := recentMins data.recentHistory
    { servers := results, recentTradeMinNQ := r.1, recentTradeMinHQ := r.2,
      dcName :=
        match data.dcName with
        | some s => if s.isEmpty then "Korea".data else s
        | none => "Korea".data }
  | .notFound => getAllKoreanServerPricesFallback outcomes
  | .failed _ => getAllKoreanServerPricesFallback outcomes

/-- True exactly on the failed outcome. -/
def isFailed {α : Type} : FetchResult α → Bool
  | .failed _ => true
  | _ => false

/-- Shard outcomes in which the first declared shard's call fails and every
other call is a 404. -/
def exOutcomes404 : Nat → FetchResult MarketPayload := fun id =>
  if id == 2075 then .failed ("boom".data) else .notFound

/-- C2 counterexample: with the unified call rejected as not found, the
aggregator does run the Fallback Coordinator, so a shard failure shows up in
the report instead of a guaranteed empty result. -/
theorem claim_C2_counterexample :
    ¬ (∀ r ∈ (getAllKoreanServerPrices FetchResult.notFound exOutcomes404).servers,
        r.listingCount = some 0 ∧ r.error = none) := by
  decide

/-- C2 amended: a not-found rejection of the unified call is handled like any
other error and triggers the Fallback Coordinator; inside fallback a per-shard
not-found is a valid empty result, so when the unified call and every shard
call are 404 the report has listingCount 0 and no failure marker everywhere. -/
theorem claim_C2_notFound_falls_back (outcomes : Nat → FetchResult MarketPayload) :
    getAllKoreanServerPrices FetchResult.notFound outcomes =
      getAllKoreanServerPricesFallback outcomes ∧
    ((getAllKoreanServerPricesFallback (fun _ => FetchResult.notFound)).servers.all
      (fun r => r.listingCount == some 0 && r.error == none)) = true :=
  ⟨rfl, by decide⟩

theorem fallbackQuote_error_iff (s : ServerInfo) (r : FetchResult MarketPayload) :
    ((fallbackQuote s r).error ≠ none ↔ isFailed r = true) := by
  cases r with
  | ok data =>
    cases hls : data.listings with
    | none => simp [fallbackQuote, getMarketData, hls, isFailed]
    | some ls =>
      by_cases h : ls.length > 0 <;> simp [fallbackQuote, getMarketData, hls, h, isFailed]
  | notFound => simp [fallbackQuote, getMarketData, isFailed]
  | failed msg => simp [fallbackQuote, getMarketData, isFailed]

theorem fallbackQuote_error_bool (s : ServerInfo) (r : FetchResult MarketPayload) :
    ((fallbackQuote s r).error != none) = isFailed r := by
  cases hb : isFailed r with
  | true =>
    have := (fallbackQuote_error_iff s r).mpr hb
    simpa [bne_iff_ne] using this
  | false =>
    by_cases he : (fallbackQuote s r).error = none
    · simp [he]
    · have := (fallbackQuote_error_iff s r).mp he
      rw [this] at hb
      exact absurd hb (by simp)

/-- C3: in fallback mode the per-shard list follows the declared order, each
summary is a function of that shard's own outcome alone, a summary carries a
failure marker exactly when its own call failed, a shard whose call was a 404
gets listingCount 0 with no marker, and a single failing call yields exactly
one failure-marked summary. -/
theorem claim_C3_fallback_isolation (outcomes : Nat → FetchResult MarketPayload) :
    ((getAllKoreanServerPricesFallback outcomes).servers.map (fun r => r.serverId) =
      KOREAN_SERVERS.map (fun s => s.id)) ∧
    ((getAllKoreanServerPricesFallback outcomes).servers =
      KOREAN_SERVERS.map (fun s => fallbackQuote s (outcomes s.id))) ∧
    (∀ s ∈ KOREAN_SERVERS,
      ((fallbackQuote s (outcomes s.id)).error ≠ none ↔
        isFailed (outcomes s.id) = true)) ∧
    (∀ s ∈ KOREAN_SERVERS, outcomes s.id = FetchResult.notFound →
      (fallbackQuote s (outcomes s.id)).listingCount = some 0 ∧
      (fallbackQuote s (outcomes s.id)).error = none) ∧
    ((KOREAN_SERVERS.countP (fun s => isFailed (outcomes s.id))) = 1 →
      ((getAllKoreanServerPricesFallback outcomes).servers.countP
        (fun r => r.error != none)) = 1) := by
  refine ⟨?_, rfl, ?_, ?_, ?_⟩
  · simp only [getAllKoreanServerPricesFallback, List.map_map]
    refine List.map_congr_left ?_
    intro s _
    show (fallbackQuote s (outcomes s.id)).serverId = s.id
    cases hr : outcomes s.id with
    | ok data =>
      cases hls : data.listings with
      | none => simp [fallbackQuote, getMarketData, hls]
      | some ls => by_cases h : ls.length > 0 <;> simp [fallbackQuote, getMarketData, hls, h]
    | notFound => rfl
    | failed msg => rfl
  · intro s _
    exact fallbackQuote_error_iff s (outcomes s.id)
  · intro s _ hnf
    rw [hnf]
    exact ⟨rfl, rfl⟩
  · intro h
    have hcount : ((getAllKoreanServerPricesFallback outcomes).servers.countP
        (fun r => r.error != none)) =
        KOREAN_SERVERS.countP (fun s => isFailed (outcomes s.id)) := by
      simp only [getAllKoreanServerPricesFallback, List.countP_map]
      refine List.countP_congr ?_
      intro s _
      show ((fallbackQuote s (outcomes s.id)).error != none) = true ↔ _
      rw [fallbackQuote_error_bool]
    rw [hcount, h]

/-- C3 witness: exactly one of the five shard calls fails; the theorem applies
and the concrete report indeed has exactly one failure-marked summary. -/
theorem claim_C3_fallback_isolation_witness :
    (((getAllKoreanServerPricesFallback exOutcomes404).servers.map (fun r => r.serverId) =
      KOREAN_SERVERS.map (fun s => s.id)) ∧
    ((getAllKoreanServerPricesFallback exOutcomes404).servers =
      KOREAN_SERVERS.map (fun s => fallbackQuote s (exOutcomes404 s.id))) ∧
    (∀ s ∈ KOREAN_SERVERS,
      ((fallbackQuote s (exOutcomes404 s.id)).error ≠ none ↔
        isFailed (exOutcomes404 s.id) = true)) ∧
    (∀ s ∈ KOREAN_SERVERS, exOutcomes404 s.id = FetchResult.notFound →
      (fallbackQuote s (exOutcomes404 s.id)).listingCount = some 0 ∧
      (fallbackQuote s (exOutcomes404 s.id)).error = none) ∧
    ((KOREAN_SERVERS.countP (fun s => isFailed (exOutcomes404 s.id))) = 1 →
      ((getAllKoreanServerPricesFallback exOutcomes404).servers.countP
        (fun r => r.error != none)) = 1)) ∧
    ((getAllKoreanServerPricesFallback exOutcomes404).servers.countP
      (fun r => r.error != none)) = 1 :=
  ⟨claim_C3_fallback_isolation exOutcomes404,
   (claim_C3_fallback_isolation exOutcomes404).2.2.2.2 (by decide)⟩

/-- C6: whatever the per-shard outcomes, a fallback-mode report carries no
cross-shard recent-trade minima; the only label-like field the code returns
is dcName, fixed to Korea on this path. -/
theorem claim_C6_fallback_no_recent (outcomes : Nat → FetchResult MarketPayload) :
    (getAllKoreanServerPricesFallback outcomes).recentTradeMinNQ = none ∧
    (getAllKoreanServerPricesFallback outcomes).recentTradeMinHQ = none ∧
    (getAllKoreanServerPricesFallback outcomes).dcName = "Korea".data :=
  ⟨rfl, rfl, rfl⟩

theorem unifiedQuote_listingCount (data : UniPayload) (s : ServerInfo) :
    (unifiedQuote data s).listingCount =
      some ((data.listings.getD []).filter (fun l => l.worldID == s.id)).length := rfl

theorem unifiedQuote_minNQ (data : UniPayload) (s : ServerInfo) :
    (unifiedQuote data s).minPriceNQ =
      (if ((data.listings.getD []).filter (fun l => l.worldID == s.id)).length > 0 then
        jsMathMin ((((data.listings.getD []).filter (fun l => l.worldID == s.id)).filter
          (fun l => !l.hq)).map (fun l => l.pricePerUnit))
      else none) := rfl

theorem unifiedQuote_minHQ (data : UniPayload) (s : ServerInfo) :
    (unifiedQuote data s).minPriceHQ =
      (if ((data.listings.getD []).filter (fun l => l.worldID == s.id)).length > 0 then
        jsMathMin ((((data.listings.getD []).filter (fun l => l.worldID == s.id)).filter
          (fun l => l.hq)).map (fun l => l.pricePerUnit))
      else none) := rfl

/-- C10: on a successful unified payload the report has exactly five
summaries, one per declared shard in declared order, for every payload; and
the listing count and minima of a shard depend only on the payload listings
whose worldID is that shard's id: two payloads agreeing on that filtered
sublist yield identical values, so listings with other worldIDs never affect
a summary. -/
theorem claim_C10_unified_shard_isolation (data data2 : UniPayload)
    (outcomes : Nat → FetchResult MarketPayload) (s : ServerInfo) :
    ((getAllKoreanServerPrices (FetchResult.ok data) outcomes).servers.length = 5) ∧
    ((getAllKoreanServerPrices (FetchResult.ok data) outcomes).servers.map
      (fun r => r.serverId) = [2075, 2076, 2077, 2078, 2080]) ∧
    ((getAllKoreanServerPrices (FetchResult.ok data) outcomes).servers =
      KOREAN_SERVERS.map (fun s2 => unifiedQuote data s2)) ∧
    ((data.listings.getD []).filter (fun l => l.worldID == s.id) =
        (data2.listings.getD []).filter (fun l => l.worldID == s.id) →
      (unifiedQuote data s).listingCount = (unifiedQuote data2 s).listingCount ∧
      (unifiedQuote data s).minPriceNQ = (unifiedQuote data2 s).minPriceNQ ∧
      (unifiedQuote data s).minPriceHQ = (unifiedQuote data2 s).minPriceHQ) := by
  refine ⟨rfl, rfl, rfl, ?_⟩
  intro h
  refine ⟨?_, ?_, ?_⟩
  · rw [unifiedQuote_listingCount, unifiedQuote_listingCount, h]
  · rw [unifiedQuote_minNQ, unifiedQuote_minNQ, h]
  · rw [unifiedQuote_minHQ, unifiedQuote_minHQ, h]

/-- A unified payload with a listing for a foreign shard id 9999 mixed in. -/
def exPayloadA : UniPayload :=
  ⟨some [⟨2075, false, 50⟩, ⟨9999, false, 1⟩, ⟨2075, true, 80⟩], some [], none, none⟩

/-- The same payload without the foreign listing and with unrelated fields
changed. -/
def exPayloadB : UniPayload :=
  ⟨some [⟨2075, false, 50⟩, ⟨2075, true, 80⟩], some [⟨false, 10⟩],
    some [(2075, 5)], some ("Korea".data)⟩

/-- C10 witness: the two payloads agree on the listings of shard 2075, so the
shard's count and minima agree even though one payload carries a foreign
listing; the report shape facts hold concretely. -/
theorem claim_C10_unified_shard_isolation_witness :
    ((getAllKoreanServerPrices (FetchResult.ok exPayloadA) exOutcomes404).servers.length = 5) ∧
    ((getAllKoreanServerPrices (FetchResult.ok exPayloadA) exOutcomes404).servers.map
      (fun r => r.serverId) = [2075, 2076, 2077, 2078, 2080]) ∧
    ((unifiedQuote exPayloadA ⟨2075, "카벙클".data, "💎".data⟩).listingCount =
      (unifiedQuote exPayloadB ⟨2075, "카벙클".data, "💎".data⟩).listingCount ∧
    (unifiedQuote exPayloadA ⟨2075, "카벙클".data, "💎".data⟩).minPriceNQ =
      (unifiedQuote exPayloadB ⟨2075, "카벙클".data, "💎".data⟩).minPriceNQ ∧
    (unifiedQuote exPayloadA ⟨2075, "카벙클".data, "💎".data⟩).minPriceHQ =
      (unifiedQuote exPayloadB ⟨2075, "카벙클".data, "💎".data⟩).minPriceHQ) :=
  ⟨(claim_C10_unified_shard_isolation exPayloadA exPayloadB exOutcomes404
      ⟨2075, "카벙클".data, "💎".data⟩).1,
   (claim_C10_unified_shard_isolation exPayloadA exPayloadB exOutcomes404
      ⟨2075, "카벙클".data, "💎".data⟩).2.1,
   (claim_C10_unified_shard_isolation exPayloadA exPayloadB exOutcomes404
      ⟨2075, "카벙클".data, "💎".data⟩).2.2.2 (by decide)⟩

/- The summary builder: the overall-minimum and cheapest-flag data of
createResultEmbed (src/index.js). -/

/-- The serversWithNQ filter of createResultEmbed: summaries that did not
fail and have a standard-quality minimum. -/
def serversWithNQ (servers : List ServerQuote) : List ServerQuote :=
  servers.filter (fun r => r.error == none && r.minPriceNQ != none)

/-- The serversWithHQ filter of createResultEmbed. -/
def serversWithHQ (servers : List ServerQuote) : List ServerQuote :=
  servers.filter (fun r => r.error == none && r.minPriceHQ != none)

/-- The overall-minimum loop of createResultEmbed over a chosen price field.
Every row of the filtered list has the field present, so the none branch is
an unreachable skip. -/
def minLoop (field : ServerQuote → Option Nat) (rows : List ServerQuote) : Option Nat :=
  rows.foldl (fun acc r =>
    match field r with
    | none => acc
    | some v =>
      match acc with
      | none => some v
      | some m => if v < m then some v else some m) none

/-- overallMinNQ of createResultEmbed. -/
def overallMinNQ (servers : List ServerQuote) : Option Nat :=
  minLoop (fun r => r.minPriceNQ) (serversWithNQ servers)

/-- overallMinHQ of createResultEmbed. -/
def overallMinHQ (servers : List ServerQuote) : Option Nat :=
  minLoop (fun r => r.minPriceHQ) (serversWithHQ servers)

/-- The per-shard cheapest flag isMin of createResultEmbed: never computed on
the error branch; otherwise equality with a present overall minimum for
either quality. -/
def isMinFlag (servers : List ServerQuote) (r : ServerQuote) : Bool :=
  match r.error with
  | some _ => false
  | none =>
    (r.minPriceNQ == overallMinNQ servers && overallMinNQ servers != none) ||
    (r.minPriceHQ == overallMinHQ servers && overallMinHQ servers != none)

/-- The minimum of a list of values, worded as the specification does: absent
exactly when the list is empty. -/
def minOfList : List Nat → Option Nat
  | [] => none
  | v :: vs =>
    match minOfList vs with
    | none => some v
    | some m => some (min v m)

/-- Combining an accumulator with an optional minimum. -/
def minCombine (a b : Option Nat) : Option Nat :=
  match a, b with
  | none, b => b
  | some m, none => some m
  | some m, some v => some (min m v)

theorem minLoop_acc (field : ServerQuote → Option Nat) (rows : List ServerQuote)
    (acc : Option Nat) :
    rows.foldl (fun acc r =>
      match field r with
      | none => acc
      | some v =>
        match acc with
        | none => some v
        | some m => if v < m then some v else some m) acc =
      minCombine acc (minOfList (rows.filterMap field)) := by
  induction rows generalizing acc with
  | nil => cases acc <;> rfl
  | cons r rows ih =>
    simp only [List.foldl_cons, List.filterMap_cons]
    cases hf : field r with
    | none => simp only [hf]; exact ih acc
    | some v =>
      simp only [hf]
      rw [ih]
      cases acc with
      | none =>
        cases hrest : minOfList (rows.filterMap field) with
        | none => simp [minCombine, minOfList, hrest]
        | some m2 => simp [minCombine, minOfList, hrest]
      | some m =>
        cases hrest : minOfList (rows.filterMap field) with
        | none =>
          simp only [minOfList, hrest]
          by_cases hvm : v < m
          · rw [if_pos hvm]
            simp only [minCombine]
            congr 1
            omega
          · rw [if_neg hvm]
            simp only [minCombine]
            congr 1
            omega
        | some m2 =>
          simp only [minOfList, hrest]
          by_cases hvm : v < m
          · rw [if_pos hvm]
            simp only [minCombine]
            congr 1
            omega
          · rw [if_neg hvm]
            simp only [minCombine]
            congr 1
            omega

theorem minLoop_eq (field : ServerQuote → Option Nat) (rows : List ServerQuote) :
    minLoop field rows = minOfList (rows.filterMap field) := by
  rw [minLoop, minLoop_acc]
  cases minOfList (rows.filterMap field) <;> rfl

theorem serversWithNQ_vals (servers : List ServerQuote) :
    (serversWithNQ servers).filterMap (fun r => r.minPriceNQ) =
      servers.filterMap (fun r => if r.error = none then r.minPriceNQ else none) := by
  induction servers with
  | nil => rfl
  | cons r rest ih =>
    simp only [serversWithNQ, List.filter_cons, List.filterMap_cons]
    cases he : r.error with
    | some msg => simp [he, ← ih, serversWithNQ]
    | none =>
      cases hm : r.minPriceNQ with
      | none => simp [he, hm, ← ih, serversWithNQ, List.filterMap_cons]
      | some v => simp [he, hm, ← ih, serversWithNQ, List.filterMap_cons]

theorem serversWithHQ_vals (servers : List ServerQuote) :
    (serversWithHQ servers).filterMap (fun r => r.minPriceHQ) =
      servers.filterMap (fun r => if r.error = none then r.minPriceHQ else none) := by
  induction servers with
  | nil => rfl
  | cons r rest ih =>
    simp only [serversWithHQ, List.filter_cons, List.filterMap_cons]
    cases he : r.error with
    | some msg => simp [he, ← ih, serversWithHQ]
    | none =>
      cases hm : r.minPriceHQ with
      | none => simp [he, hm, ← ih, serversWithHQ, List.filterMap_cons]
      | some v => simp [he, hm, ← ih, serversWithHQ, List.filterMap_cons]

theorem minOfList_spec (l : List Nat) :
    (minOfList l = none ↔ l = []) ∧
    (∀ m, minOfList l = some m → m ∈ l ∧ ∀ v ∈ l, m ≤ v) := by
  induction l with
  | nil => exact ⟨by simp [minOfList], fun m h => by simp [minOfList] at h⟩
  | cons v vs ih =>
    constructor
    · simp only [minOfList]
      cases hrest : minOfList vs <;> simp
    · intro m hm
      simp only [minOfList] at hm
      cases hrest : minOfList vs with
      | none =>
        rw [hrest] at hm
        have hv : m = v := by injection hm with h; exact h.symm
        have hnil : vs = [] := ih.1.mp hrest
        rw [hv, hnil]
        exact ⟨List.mem_singleton_self v, by simp⟩
      | some m2 =>
        rw [hrest] at hm
        have hv : m = min v m2 := by injection hm with h; exact h.symm
        obtain ⟨hmem2, hbound2⟩ := ih.2 m2 hrest
        constructor
        · rcases Nat.le_total v m2 with h | h
          · rw [hv, Nat.min_eq_left h]; exact List.mem_cons_self v vs
          · rw [hv, Nat.min_eq_right h]; exact List.mem_cons_of_mem v hmem2
        · intro x hx
          rcases List.mem_cons.mp hx with h | h
          · rw [h, hv]; omega
          · have := hbound2 x h
            rw [hv]
            omega

/-- C5: the overall minima equal the minimum over non-failed shards with the
field present (absent when none has it, with the minimum properties spelled
out), and a shard is flagged cheapest exactly when it did not fail and one of
its minima equals the corresponding present overall minimum; ties are all
flagged, failed shards and shards with absent prices are not. -/
theorem claim_C5_overall_min_and_flags (servers : List ServerQuote) (r : ServerQuote) :
    overallMinNQ servers =
      minOfList (servers.filterMap
        (fun q2 => if q2.error = none then q2.minPriceNQ else none)) ∧
    overallMinHQ servers =
      minOfList (servers.filterMap
        (fun q2 => if q2.error = none then q2.minPriceHQ else none)) ∧
    (isMinFlag servers r = true ↔
      (r.error = none ∧
        ((overallMinNQ servers ≠ none ∧ r.minPriceNQ = overallMinNQ servers) ∨
         (overallMinHQ servers ≠ none ∧ r.minPriceHQ = overallMinHQ servers)))) ∧
    (∀ m, overallMinNQ servers = some m →
      m ∈ servers.filterMap (fun q2 => if q2.error = none then q2.minPriceNQ else none) ∧
      ∀ v ∈ servers.filterMap (fun q2 => if q2.error = none then q2.minPriceNQ else none),
        m ≤ v) ∧
    (∀ m, overallMinHQ servers = some m →
      m ∈ servers.filterMap (fun q2 => if q2.error = none then q2.minPriceHQ else none) ∧
      ∀ v ∈ servers.filterMap (fun q2 => if q2.error = none then q2.minPriceHQ else none),
        m ≤ v) := by
  have hNQ : overallMinNQ servers =
      minOfList (servers.filterMap
        (fun q2 => if q2.error = none then q2.minPriceNQ else none)) := by
    rw [overallMinNQ, minLoop_eq, serversWithNQ_vals]
  have hHQ : overallMinHQ servers =
      minOfList (servers.filterMap
        (fun q2 => if q2.error = none then q2.minPriceHQ else none)) := by
    rw [overallMinHQ, minLoop_eq, serversWithHQ_vals]
  refine ⟨hNQ, hHQ, ?_, ?_, ?_⟩
  · cases he : r.error with
    | some msg => simp [isMinFlag, he]
    | none =>
      simp only [isMinFlag, he, Bool.or_eq_true, Bool.and_eq_true, beq_iff_eq,
        bne_iff_ne, ne_eq, true_and]
      tauto
  · intro m hm
    rw [hNQ] at hm
    exact (minOfList_spec _).2 m hm
  · intro m hm
    rw [hHQ] at hm
    exact (minOfList_spec _).2 m hm

/-- The specification example: per-shard standard minima 50, 30, 30 and one
shard with no price. -/
def exServers : List ServerQuote :=
  [⟨"카벙클".data, 2075, "💎".data, some true, some 1, some 50, none, none, none⟩,
   ⟨"초코보".data, 2076, "🐤".data, some true, some 1, some 30, none, none, none⟩,
   ⟨"모그리".data, 2077, "🧸".data, some true, some 1, some 30, none, none, none⟩,
   ⟨"톤베리".data, 2078, "🗡️".data, some false, some 0, none, none, none, none⟩]

/-- C5 witness: on the example the overall minimum is 30, both shards at 30
are flagged, and neither the shard at 50 nor the one without a price is. -/
theorem claim_C5_overall_min_and_flags_witness :
    (overallMinNQ exServers =
      minOfList (exServers.filterMap
        (fun q2 => if q2.error = none then q2.minPriceNQ else none))) ∧
    overallMinNQ exServers = some 30 ∧
    isMinFlag exServers
      ⟨"초코보".data, 2076, "🐤".data, some true, some 1, some 30, none, none, none⟩ = true ∧
    isMinFlag exServers
      ⟨"모그리".data, 2077, "🧸".data, some true, some 1, some 30, none, none, none⟩ = true ∧
    isMinFlag exServers
      ⟨"카벙클".data, 2075, "💎".data, some true, some 1, some 50, none, none, none⟩ = false ∧
    isMinFlag exServers
      ⟨"톤베리".data, 2078, "🗡️".data, some false, some 0, none, none, none, none⟩ = false :=
  ⟨(claim_C5_overall_min_and_flags exServers
      ⟨"초코보".data, 2076, "🐤".data, some true, some 1, some 30, none, none, none⟩).1,
   by decide, by decide, by decide, by decide, by decide⟩

/- The catalog CSV row loader: the per-row logic of parseCSV in the update
script (src/unnamed/part_000). -/

/-- JS whitespace, as far as trim and parseInt need it here. -/
def jsIsSpace (c : Char) : Bool := c == ' ' || c == '\t' || c == '\n' || c == '\r'

/-- JS String.prototype.trim. -/
def jsTrim (s : JStr) : JStr :=
  ((s.dropWhile jsIsSpace).reverse.dropWhile jsIsSpace).reverse

/-- The numeric value of a digit run. -/
def digitsToNat (ds : List Char) : Nat :=
  ds.foldl (fun acc c => acc * 10 + (c.toNat - 48)) 0

/-- The value of the longest leading digit run, or none when there is none. -/
def leadingNat (s : JStr) : Option Nat :=
  let ds := s.takeWhile Char.isDigit
  if ds.isEmpty then none else some (digitsToNat ds)

/-- JS parseInt with radix 10: skip whitespace, optional sign, longest digit
run, NaN (none) when no digit follows. parseInt with no radix argument
differs only on 0x-prefixed strings, which start with the digit 0 and are
therefore non-NaN under both readings, so the isNaN guard of the icon branch
is also modelled by this function. -/
def jsParseInt (s : JStr) : Option Int :=
  let t := s.dropWhile jsIsSpace
  match t with
  | '-' :: rest => (leadingNat rest).map (fun n => -(n : Int))
  | '+' :: rest => (leadingNat rest).map (fun n => (n : Int))
  | _ => (leadingNat t).map (fun n => (n : Int))

/-- JS Number.prototype.toString on an integer value. -/
def intToString (i : Int) : JStr :=
  if i < 0 then '-' :: Nat.toDigits 10 i.natAbs else Nat.toDigits 10 i.toNat

/-- String.prototype.padStart(6, zero). -/
def padStart6 (s : JStr) : JStr := List.replicate (6 - s.length) '0' ++ s

/-- The icon path construction of parseCSV: zero-pad the id to six digits,
bucket folder is the first three characters plus 000. -/
def iconPathOf (iconNum : Int) : JStr :=
  let paddedId := padStart6 (intToString iconNum)
  let folder := paddedId.take 3 ++ "000".data
  "/i/".data ++ folder ++ "/".data ++ paddedId ++ ".png".data

/-- One data row of parseCSV: skip when the row is too short; emit the item
when the parsed id is positive and the name nonblank; attach the icon path
when the icon cell is nonempty, not the literal 0 string, and parseable. -/
def parseRow (nameIndex iconIndex : Nat) (cols : List JStr) : Option Item :=
  if cols.length < max nameIndex iconIndex + 1 then none
  else
    let name := cols.getD nameIndex []
    let iconId := cols.getD iconIndex []
    match jsParseInt (cols.getD 0 []) with
    | none => none
    | some i =>
      if decide (0 < i) && !name.isEmpty && !(jsTrim name).isEmpty then
        if !iconId.isEmpty && iconId != ['0'] && (jsParseInt iconId).isSome then
          some { id := i.toNat, name := jsTrim name,
                 icon := some (iconPathOf ((jsParseInt iconId).getD 0)) }
        else
          some { id := i.toNat, name := jsTrim name, icon := none }
      else none

theorem mainCond_iff (iv : Int) (name : JStr) :
    (decide (0 < iv) && !name.isEmpty && !(jsTrim name).isEmpty) = true ↔
      (0 < iv ∧ name ≠ [] ∧ jsTrim name ≠ []) := by
  simp only [Bool.and_eq_true, Bool.not_eq_true', List.isEmpty_eq_false,
    decide_eq_true_eq, ne_eq]
  tauto

theorem iconCond_iff (iconId : JStr) :
    (!iconId.isEmpty && iconId != ['0'] && (jsParseInt iconId).isSome) = true ↔
      (iconId ≠ [] ∧ iconId ≠ ['0'] ∧ jsParseInt iconId ≠ none) := by
  simp only [Bool.and_eq_true, Bool.not_eq_true', List.isEmpty_eq_false, bne_iff_ne,
    Option.isSome_iff_ne_none, ne_eq]
  tauto

theorem parseRow_eq (nameIndex iconIndex : Nat) (cols : List JStr)
    (hlen : ¬ cols.length < max nameIndex iconIndex + 1) (iv : Int)
    (hid : jsParseInt (cols.getD 0 []) = some iv) :
    parseRow nameIndex iconIndex cols =
      (if decide (0 < iv) && !(cols.getD nameIndex []).isEmpty &&
          !(jsTrim (cols.getD nameIndex [])).isEmpty then
        if !(cols.getD iconIndex []).isEmpty && (cols.getD iconIndex []) != ['0'] &&
            (jsParseInt (cols.getD iconIndex [])).isSome then
          some { id := iv.toNat, name := jsTrim (cols.getD nameIndex []),
                 icon := some (iconPathOf ((jsParseInt (cols.getD iconIndex [])).getD 0)) }
        else
          some { id := iv.toNat, name := jsTrim (cols.getD nameIndex []), icon := none }
      else none) := by
  rw [parseRow, if_neg hlen]
  simp only [hid]

/-- C9 counterexample: the icon cell 00 is numeric with value zero, yet the
loader emits an icon field for the row, with the zero-bucket path. -/
theorem claim_C9_counterexample :
    jsParseInt ("00".data) = some 0 ∧
    parseRow 10 11
        ["5".data, [], [], [], [], [], [], [], [], [], "Dye".data, "00".data] =
      some ⟨5, "Dye".data, some ("/i/000000/000000.png".data)⟩ := by
  decide

/-- C9 amended: a row with enough columns, a positive parsed id, and a
nonblank name is emitted; it carries an icon field exactly when the icon
cell is nonempty, differs from the literal 0 string, and has a parseable
leading integer (so a zero value written as 00 still gets an icon); when it
does, the icon is the /i/ bucket path of the parsed value zero-padded to at
least six digits. -/
theorem claim_C9_icon_rule (nameIndex iconIndex : Nat) (cols : List JStr) :
    ((parseRow nameIndex iconIndex cols).isSome = true ↔
      (¬ cols.length < max nameIndex iconIndex + 1 ∧
       (∃ i : Int, jsParseInt (cols.getD 0 []) = some i ∧ 0 < i) ∧
       cols.getD nameIndex [] ≠ [] ∧ jsTrim (cols.getD nameIndex []) ≠ [])) ∧
    (∀ item, parseRow nameIndex iconIndex cols = some item →
      ((item.icon ≠ none) ↔
        (cols.getD iconIndex [] ≠ [] ∧ cols.getD iconIndex [] ≠ ['0'] ∧
         jsParseInt (cols.getD iconIndex []) ≠ none)) ∧
      (∀ n : Int, jsParseInt (cols.getD iconIndex []) = some n →
        cols.getD iconIndex [] ≠ [] → cols.getD iconIndex [] ≠ ['0'] →
        item.icon = some (iconPathOf n))) := by
  by_cases hlen : cols.length < max nameIndex iconIndex + 1
  · have hnone : parseRow nameIndex iconIndex cols = none := by
      rw [parseRow, if_pos hlen]
    constructor
    · rw [hnone]
      simp [hlen]
    · intro item hitem
      rw [hnone] at hitem
      cases hitem
  · cases hid : jsParseInt (cols.getD 0 []) with
    | none =>
      have hnone : parseRow nameIndex iconIndex cols = none := by
        rw [parseRow, if_neg hlen]
        simp only [hid]
      constructor
      · rw [hnone]
        simp only [Option.isSome_none, Bool.false_eq_true, false_iff]
        rintro ⟨_, ⟨i, hi, _⟩, _, _⟩
        cases hi
      · intro item hitem
        rw [hnone] at hitem
        cases hitem
    | some iv =>
      rw [parseRow_eq nameIndex iconIndex cols hlen iv hid]
      by_cases hmain : (decide (0 < iv) && !(cols.getD nameIndex []).isEmpty &&
          !(jsTrim (cols.getD nameIndex [])).isEmpty) = true
      · rw [if_pos hmain]
        obtain ⟨hiv, hname, htrim⟩ := (mainCond_iff iv _).mp hmain
        by_cases hicon : (!(cols.getD iconIndex []).isEmpty &&
            (cols.getD iconIndex []) != ['0'] &&
            (jsParseInt (cols.getD iconIndex [])).isSome) = true
        · rw [if_pos hicon]
          obtain ⟨hic1, hic2, hic3⟩ := (iconCond_iff _).mp hicon
          constructor
          · simp only [Option.isSome_some, true_iff]
            exact ⟨hlen, ⟨iv, rfl, hiv⟩, hname, htrim⟩
          · intro item hitem
            have hitem2 : item = ⟨iv.toNat, jsTrim (cols.getD nameIndex []),
                some (iconPathOf ((jsParseInt (cols.getD iconIndex [])).getD 0))⟩ := by
              injection hitem with h
              exact h.symm
            subst hitem2
            refine ⟨⟨fun _ => ⟨hic1, hic2, hic3⟩, fun _ => by simp⟩, ?_⟩
            intro n hn _ _
            show some (iconPathOf ((jsParseInt (cols.getD iconIndex [])).getD 0)) =
              some (iconPathOf n)
            simp only [hn, Option.getD_some]
        · rw [if_neg hicon]
          constructor
          · simp only [Option.isSome_some, true_iff]
            exact ⟨hlen, ⟨iv, rfl, hiv⟩, hname, htrim⟩
          · intro item hitem
            have hitem2 : item = ⟨iv.toNat, jsTrim (cols.getD nameIndex []), none⟩ := by
              injection hitem with h
              exact h.symm
            subst hitem2
            constructor
            · constructor
              · intro hne
                exact absurd rfl hne
              · intro hrhs
                exact absurd ((iconCond_iff _).mpr hrhs) hicon
            · intro n hn h1 h2
              exfalso
              apply hicon
              refine (iconCond_iff _).mpr ⟨h1, h2, ?_⟩
              rw [hn]
              exact Option.some_ne_none n
      · rw [if_neg hmain]
        constructor
        · simp only [Option.isSome_none, Bool.false_eq_true, false_iff]
          rintro ⟨_, ⟨i, hi, hipos⟩, hname, htrim⟩
          have hiv : iv = i := Option.some.inj hi
          apply hmain
          refine (mainCond_iff iv _).mpr ⟨?_, hname, htrim⟩
          omega
        · intro item hitem
          cases hitem

/-- C9 witness: a well-formed row with id 17534, name Dye, icon id 25847 is
emitted with the bucket path of the script docstring. -/
theorem claim_C9_icon_rule_witness :
    (((parseRow 10 11
        ["17534".data, [], [], [], [], [], [], [], [], [], "Dye".data,
          "25847".data]).isSome = true ↔
      (¬ (["17534".data, [], [], [], [], [], [], [], [], [], "Dye".data,
          "25847".data] : List JStr).length < max 10 11 + 1 ∧
       (∃ i : Int, jsParseInt ((["17534".data, [], [], [], [], [], [], [], [], [],
          "Dye".data, "25847".data] : List JStr).getD 0 []) = some i ∧ 0 < i) ∧
       (["17534".data, [], [], [], [], [], [], [], [], [], "Dye".data,
          "25847".data] : List JStr).getD 10 [] ≠ [] ∧
       jsTrim ((["17534".data, [], [], [], [], [], [], [], [], [], "Dye".data,
          "25847".data] : List JStr).getD 10 []) ≠ [])) ∧
    (∀ item, parseRow 10 11
        ["17534".data, [], [], [], [], [], [], [], [], [], "Dye".data,
          "25847".data] = some item →
      ((item.icon ≠ none) ↔
        ((["17534".data, [], [], [], [], [], [], [], [], [], "Dye".data,
          "25847".data] : List JStr).getD 11 [] ≠ [] ∧
         (["17534".data, [], [], [], [], [], [], [], [], [], "Dye".data,
          "25847".data] : List JStr).getD 11 [] ≠ ['0'] ∧
         jsParseInt ((["17534".data, [], [], [], [], [], [], [], [], [], "Dye".data,
          "25847".data] : List JStr).getD 11 []) ≠ none)) ∧
      (∀ n : Int, jsParseInt ((["17534".data, [], [], [], [], [], [], [], [], [],
          "Dye".data, "25847".data] : List JStr).getD 11 []) = some n →
        (["17534".data, [], [], [], [], [], [], [], [], [], "Dye".data,
          "25847".data] : List JStr).getD 11 [] ≠ [] →
        (["17534".data, [], [], [], [], [], [], [], [], [], "Dye".data,
          "25847".data] : List JStr).getD 11 [] ≠ ['0'] →
        item.icon = some (iconPathOf n)))) ∧
    parseRow 10 11
        ["17534".data, [], [], [], [], [], [], [], [], [], "Dye".data, "25847".data] =
      some ⟨17534, "Dye".data, some ("/i/025000/025847.png".data)⟩ :=
  ⟨claim_C9_icon_rule 10 11
    ["17534".data, [], [], [], [], [], [], [], [], [], "Dye".data, "25847".data],
   by decide⟩
